import Mathlib

/-!
# A shallow embedding of the mp-coro lazy-task engine

This file embeds the coroutine engine of the mp-coro library:

* `task<T>` (src/include/mp-coro/task.h): a lazy task with a stored
  continuation handle, resumed by symmetric transfer at the final
  suspension point;
* `detail::synchronized_task<Sync, T>`
  (src/include/mp-coro/bits/synchronized_task.h): a lazy task that, at its
  final suspension point, notifies an external sync object instead of
  resuming a coroutine continuation;
* `sync_await` (src/include/mp-coro/sync_await.h): the blocking bridge that
  wraps an awaitable in a synchronized task, starts it, blocks on a binary
  semaphore, and then retrieves the result.

The embedding is a small-step machine.  Coroutine frames live in a list;
each frame carries its promise state (continuation handle, sync pointer,
result slot) and its remaining body.  The native call stack is explicit:
`resume()` from ordinary code pushes a frame, an `await_suspend` that
returns a coroutine handle (symmetric transfer) replaces the top of the
stack, and an `await_suspend` that returns `void`, or a transfer to
`std::noop_coroutine()`, pops.  A trace records the observable side effects
of task bodies and the `notify_awaitable_completed` calls on sync objects.
Machine values are natural numbers and exceptions are natural-number codes.
-/

set_option maxRecDepth 4000
set_option maxHeartbeats 1000000

namespace MpCoro

/-- A coroutine body: the user code of a task between its suspension
points.  `awaitTask c rest` is `co_await` on the task whose frame has
index `c`; the awaited value is stored in the frame register.  `ret` is
`co_return reg` (returning the last awaited value, as in `make_task` and
`make_synchronized_task`, whose bodies are `co_return co_await awaitable`);
`retConst v` is `co_return v`; `throwErr e` is an uncaught exception with
code `e`; `act a rest` is an observable side effect of the body. -/
inductive Body where
  | ret : Body
  | retConst : Nat → Body
  | throwErr : Nat → Body
  | act : Nat → Body → Body
  | awaitTask : Nat → Body → Body
deriving DecidableEq, Repr

/-- Modelled from the spec: the result slot
(`detail::task_promise_storage`, not under src/): "holds one of: no value
yet, a value of type `T` ..., or a captured exception/error"; extraction
(`get`) "rethrows a captured error rather than returning a value". -/
inductive Storage where
  | empty : Storage
  | value : Nat → Storage
  | exn : Nat → Storage
deriving DecidableEq, Repr

/-- A coroutine handle (`std::coroutine_handle<>`): either the no-op
sentinel `std::noop_coroutine()` or a handle to the frame with the given
index. -/
inductive Handle where
  | noop : Handle
  | coro : Nat → Handle
deriving DecidableEq, Repr

/-- Which promise type a frame has: `task::promise_type` or
`synchronized_task::promise_type`. -/
inductive Kind where
  | plainTask : Kind
  | syncTask : Kind
deriving DecidableEq, Repr

/-- Where a frame currently stands.  `suspInitial`: suspended at the
initial suspension point (`initial_suspend` returned
`std::suspend_always`, the body has not run).  `running`: currently
executing its body.  `suspAwaiting c`: suspended at a `co_await` on the
task with frame index `c`.  `final`: suspended at the final suspension
point, i.e. `coroutine_handle::done()` is true. -/
inductive Status where
  | suspInitial : Status
  | running : Status
  | suspAwaiting : Nat → Status
  | final : Status
deriving DecidableEq, Repr

/-- A coroutine frame together with its promise.  `continuation` is
`task::promise_type::continuation`, initialized to
`std::noop_coroutine()` (task.h line 112).  `sync` is
`synchronized_task::promise_type::sync`, initialized to `nullptr`
(synchronized_task.h line 50); `none` models the null pointer.  `result`
is the result slot, `reg` holds the value produced by the most recent
`co_await` in the body, and `body` is the remaining body. -/
structure Frame where
  kind : Kind
  continuation : Handle := Handle.noop
  sync : Option Nat := none
  result : Storage := Storage.empty
  reg : Nat := 0
  body : Body
  status : Status
deriving DecidableEq, Repr

/-- Observable events: `action fid a` is the side effect `a` performed by
the body of frame `fid`; `notifyDone sid` is the call
`sync->notify_awaitable_completed()` on sync object `sid`. -/
inductive Event where
  | action : Nat → Nat → Event
  | notifyDone : Nat → Event
deriving DecidableEq, Repr

/-- The whole machine: the coroutine frames, the binary-semaphore counters
of the sync objects, the explicit native call stack (head = the frame
whose `resume()` is innermost, i.e. the running frame), and the event
trace. -/
structure Machine where
  frames : List Frame
  syncs : List Nat
  callStack : List Nat
  trace : List Event
deriving DecidableEq, Repr

/-- Result of one machine step: `halt` when the call stack is empty (all
outer `resume()` calls have returned), `next m` for a normal step, and
`fault` for undefined behavior in the C++ source (resuming a done
coroutine, dereferencing a null sync pointer, awaiting a value that is
not there, or using an invalid frame index). -/
inductive StepOut where
  | halt : StepOut
  | next : Machine → StepOut
  | fault : StepOut
deriving DecidableEq, Repr

/-- `task::awaiter::await_ready` (task.h lines 154-157): true iff the
task's coroutine is already done, i.e. suspended at its final suspension
point. -/
def await_ready (f : Frame) : Bool :=
  f.status == Status.final

/-- The frame finished its body and its result slot has been populated
(`f` already carries the new result); this models `final_suspend`.  For a
`task` (task.h lines 127-140): the final awaiter is `std::suspend_always`,
so the frame suspends once more (status `final`) and is never destroyed;
`final_awaiter::await_suspend` returns `promise.continuation`, a symmetric
transfer that replaces the top of the native stack, except that a transfer
to `std::noop_coroutine()` returns control to the resumer (pop).  For a
`synchronized_task` (synchronized_task.h lines 65-77): the final awaiter
calls `sync->notify_awaitable_completed()` — a fault if `sync` is still
null — which releases the binary semaphore, and its `await_suspend`
returns `void`, so control returns to the resumer (pop). -/
def finishFrame (m : Machine) (fid : Nat) (f : Frame) (restStack : List Nat) : StepOut :=
  match f.kind with
  | Kind.plainTask =>
    match f.continuation with
    | Handle.noop =>
      StepOut.next { m with
        frames := m.frames.set fid { f with status := Status.final },
        callStack := restStack }
    | Handle.coro k =>
      StepOut.next { m with
        frames := m.frames.set fid { f with status := Status.final },
        callStack := k :: restStack }
  | Kind.syncTask =>
    match f.sync with
    | none => StepOut.fault
    | some sid =>
      StepOut.next { m with
        frames := m.frames.set fid { f with status := Status.final },
        syncs := m.syncs.set sid (m.syncs.getD sid 0 + 1),
        trace := m.trace ++ [Event.notifyDone sid],
        callStack := restStack }

/-- One step of the machine.  The head of the call stack is the frame
being driven.  Dispatch on its status models what `resume()` does at each
suspension point; the `running` case executes one instruction of the
body.  A `co_await` on a task follows the awaiter protocol of task.h:
`await_ready` (lines 154-157) checks `done()`; if ready, `await_resume`
(lines 168-171) reads the result slot at once, rethrowing a stored
exception; if not ready, `await_suspend` (lines 161-165) stores the
awaiting frame as the task's continuation and returns the task's handle —
a symmetric transfer that replaces the top of the native stack instead of
growing it. -/
def step (m : Machine) : StepOut :=
  match m.callStack with
  | [] => StepOut.halt
  | fid :: restStack =>
    match m.frames[fid]? with
    | none => StepOut.fault
    | some f =>
      match f.status with
      | Status.final => StepOut.fault
      | Status.suspInitial =>
        StepOut.next { m with
          frames := m.frames.set fid { f with status := Status.running } }
      | Status.suspAwaiting c =>
        match m.frames[c]? with
        | none => StepOut.fault
        | some cf =>
          match cf.result with
          | Storage.empty => StepOut.fault
          | Storage.value v =>
            StepOut.next { m with
              frames := m.frames.set fid { f with status := Status.running, reg := v } }
          | Storage.exn e =>
            finishFrame m fid { f with status := Status.running, result := Storage.exn e }
              restStack
      | Status.running =>
        match f.body with
        | Body.act a rest =>
          StepOut.next { m with
            frames := m.frames.set fid { f with body := rest },
            trace := m.trace ++ [Event.action fid a] }
        | Body.ret =>
          finishFrame m fid { f with result := Storage.value f.reg } restStack
        | Body.retConst v =>
          finishFrame m fid { f with result := Storage.value v } restStack
        | Body.throwErr e =>
          finishFrame m fid { f with result := Storage.exn e } restStack
        | Body.awaitTask c rest =>
          match m.frames[c]? with
          | none => StepOut.fault
          | some cf =>
            if cf.kind = Kind.syncTask then StepOut.fault
            else if await_ready cf then
              match cf.result with
              | Storage.empty => StepOut.fault
              | Storage.value v =>
                StepOut.next { m with
                  frames := m.frames.set fid { f with reg := v, body := rest } }
              | Storage.exn e =>
                finishFrame m fid { f with result := Storage.exn e, body := rest } restStack
            else
              StepOut.next { m with
                frames := (m.frames.set fid
                    { f with status := Status.suspAwaiting c, body := rest }).set c
                  { cf with continuation := Handle.coro fid },
                callStack := c :: restStack }

/-- Result of running the machine: it reached an empty call stack, it hit
undefined behavior, or the fuel ran out. -/
inductive RunRes where
  | finished : Machine → RunRes
  | fault : RunRes
  | outOfFuel : RunRes
deriving DecidableEq, Repr

/-- Run the machine until every outer `resume()` has returned, with
fuel. -/
def run : Nat → Machine → RunRes
  | 0, _ => RunRes.outOfFuel
  | fuel + 1, m =>
    match step m with
    | StepOut.halt => RunRes.finished m
    | StepOut.fault => RunRes.fault
    | StepOut.next m1 => run fuel m1

/-- Invoking a coroutine that returns a `task` (task.h): the frame is
allocated, `initial_suspend` returns `std::suspend_always` (task.h lines
121-124), so the task is returned suspended at its entry point; no code of
the body runs.  Returns the new machine and the frame index of the new
task. -/
def mkTask (m : Machine) (b : Body) : Machine × Nat :=
  ({ m with frames :=
      m.frames ++ [{ kind := Kind.plainTask, body := b, status := Status.suspInitial }] },
   m.frames.length)

/-- `detail::make_synchronized_task<Sync>(awaitable)`
(synchronized_task.h lines 133-138): a coroutine whose body is
`co_return co_await awaitable`, returning a `synchronized_task` suspended
at its entry point (`initial_suspend` is `std::suspend_always`,
synchronized_task.h lines 59-62); its `sync` pointer is null at creation
(line 50).  The awaitable is the task with frame index `aid`. -/
def make_synchronized_task (m : Machine) (aid : Nat) : Machine × Nat :=
  ({ m with frames :=
      m.frames ++ [{ kind := Kind.syncTask, body := Body.awaitTask aid Body.ret,
                     status := Status.suspInitial }] },
   m.frames.length)

/-- Construct the `sync` object of `sync_await` (sync_await.h lines
37-40): a `std::binary_semaphore` with initial count `0`, whose
`notify_awaitable_completed` releases it.  Returns the new machine and the
sync-object index. -/
def mkSyncObject (m : Machine) : Machine × Nat :=
  ({ m with syncs := m.syncs ++ [0] }, m.syncs.length)

/-- `synchronized_task::start(Sync &s)` (synchronized_task.h lines 91-94):
first `promise_->sync = &s;`, then
`coroutine_handle::from_promise(*promise_).resume();` — the first
resumption of the frame, a native call from ordinary code, hence a push on
the native call stack. -/
def start (m : Machine) (fid : Nat) (sid : Nat) : Machine :=
  match m.frames[fid]? with
  | none => m
  | some f =>
    { m with
      frames := m.frames.set fid { f with sync := some sid },
      callStack := fid :: m.callStack }

/-- `work_done.sem.acquire()` (sync_await.h line 46) in the single-threaded
model: once the machine has halted, acquiring succeeds iff the semaphore
counter is positive (otherwise the calling thread would block forever). -/
def acquire (m : Machine) (sid : Nat) : Option Machine :=
  if 0 < m.syncs.getD sid 0 then
    some { m with syncs := m.syncs.set sid (m.syncs.getD sid 0 - 1) }
  else none

/-- `promise.get()` on the result slot, modelled from the spec: returns
the stored value or rethrows the captured exception; `none` if the slot is
still empty (retrieving before completion, a contract violation). -/
def storageGet (s : Storage) : Option (Except Nat Nat) :=
  match s with
  | Storage.empty => none
  | Storage.value v => some (Except.ok v)
  | Storage.exn e => some (Except.error e)

/-- `synchronized_task::get()` (synchronized_task.h lines 99-102):
retrieve the value produced by the task from its promise, rethrowing a
captured exception. -/
def taskGet (m : Machine) (fid : Nat) : Option (Except Nat Nat) :=
  match m.frames[fid]? with
  | none => none
  | some f => storageGet f.result

/-- `sync_await(awaitable)` (sync_await.h lines 36-48), for an awaitable
that is the task with frame index `aid` of machine `m`: build a
synchronized task around it (`make_synchronized_task`), construct the
`sync` object (a binary semaphore at `0`), `start` the synchronized task
with it, block acquiring the semaphore (after the started run has halted),
and return `sync_task.get()` — the value, or the rethrown exception.
`none` models a run that blocks forever, faults, or runs out of fuel. -/
def sync_await (fuel : Nat) (m : Machine) (aid : Nat) : Option (Except Nat Nat) :=
  let p1 := make_synchronized_task m aid
  let p2 := mkSyncObject p1.1
  let m3 := start p2.1 p1.2 p2.2
  match run fuel m3 with
  | RunRes.finished m4 =>
    match acquire m4 p2.2 with
    | some m5 => taskGet m5 p1.2
    | none => none
  | _ => none

/-- One machine step. -/
def StepNext (m m' : Machine) : Prop :=
  step m = StepOut.next m'

/-- `Reach m m'`: the machine state `m'` occurs in the (deterministic)
execution that starts at `m`. -/
def Reach : Machine → Machine → Prop :=
  Relation.ReflTransGen StepNext

/-- Invariant: a frame suspended at its final suspension point has a
populated result slot (the body finished with a value or a captured
exception). -/
def goodResults (m : Machine) : Prop :=
  ∀ (i : Nat) (f : Frame), m.frames[i]? = some f → f.status = Status.final →
    f.result ≠ Storage.empty

/-- A freshly created, not yet started task whose body immediately returns
`v` without suspending (an immediately-completing task). -/
def pendingLeaf (v : Nat) : Frame :=
  { kind := Kind.plainTask, body := Body.retConst v, status := Status.suspInitial }

/-- The body `co_await t_1; co_await t_2; ...; co_return`, awaiting the
tasks with frame indices `cs` in order and returning the value of the last
one. -/
def chainBody : List Nat → Body
  | [] => Body.ret
  | c :: cs => Body.awaitTask c (chainBody cs)

/-- The machine with no frames, no sync objects, an empty native stack and
an empty trace. -/
def emptyMachine : Machine :=
  { frames := [], syncs := [], callStack := [], trace := [] }

/-- The event trace after a finished run. -/
def runTrace (fuel : Nat) (m : Machine) : Option (List Event) :=
  match run fuel m with
  | RunRes.finished m' => some m'.trace
  | _ => none

/-- The result slot of frame `i` after a finished run. -/
def runResult (fuel : Nat) (m : Machine) (i : Nat) : Option Storage :=
  match run fuel m with
  | RunRes.finished m' => Option.map Frame.result m'.frames[i]?
  | _ => none

/-- One driving coroutine (frame 0, running at the head of the stack)
whose body is `co_await t1; co_await t2; ...; co_return`, awaiting `n`
immediately-completing tasks in order; task `t_i` sits in frame `i` with
body `co_return i`. -/
def chainFrames (n : Nat) : List Frame :=
  { kind := Kind.plainTask,
    body := chainBody ((List.range n).map (fun i => i + 1)),
    status := Status.running } :: (List.range n).map (fun i => pendingLeaf (i + 1))

/-- The machine driving `chainFrames n`. -/
def chainMachine (n : Nat) : Machine :=
  { frames := chainFrames n, syncs := [], callStack := [0], trace := [] }

/-- A machine holding one freshly created task (frame 0) whose body is
`co_return v`. -/
def oneTaskMachine (v : Nat) : Machine :=
  (mkTask emptyMachine (Body.retConst v)).1

/-- A machine holding one freshly created task (frame 0) whose body
throws `e`. -/
def oneThrowMachine (e : Nat) : Machine :=
  (mkTask emptyMachine (Body.throwErr e)).1

/-- Frame 0: a task that throws `e`; frame 1: a `make_task`-style task
whose body is `co_return co_await t0`. -/
def failChain (e : Nat) : Machine :=
  (mkTask (mkTask emptyMachine (Body.throwErr e)).1 (Body.awaitTask 0 Body.ret)).1

/-- Frame 0: a task with observable side effect `7` followed by
`co_return 42`; frame 1: the synchronized task built around it by
`make_synchronized_task`; sync object 0: the binary semaphore.  The
synchronized task has just been started with that sync object. -/
def startedSyncMachine : Machine :=
  start (mkSyncObject (make_synchronized_task
    (mkTask emptyMachine (Body.act 7 (Body.retConst 42))).1 0).1).1 1 0

/-- A not-yet-started task with body: side effect `7`, then
`co_return 42`. -/
def effectLeaf : Frame :=
  { kind := Kind.plainTask,
    body := Body.act 7 (Body.retConst 42),
    status := Status.suspInitial }

/-- A running coroutine that awaits frame 0 twice and returns the second
observation. -/
def doubleRoot : Frame :=
  { kind := Kind.plainTask,
    body := Body.awaitTask 0 (Body.awaitTask 0 Body.ret),
    status := Status.running }

/-- Frame 0: `effectLeaf`; frame 1: `doubleRoot`, being driven. -/
def doubleAwaitMachine : Machine :=
  { frames := [effectLeaf, doubleRoot], syncs := [], callStack := [1], trace := [] }

/-- A running coroutine whose body is `co_return co_await t1`. -/
def awaitRoot : Frame :=
  { kind := Kind.plainTask,
    body := Body.awaitTask 1 Body.ret,
    status := Status.running }

/-- Frame 0: `awaitRoot`, being driven; frame 1: a pending
immediately-completing task returning `5`. -/
def awaitPairMachine : Machine :=
  { frames := [awaitRoot, pendingLeaf 5], syncs := [], callStack := [0], trace := [] }

/-- A running coroutine whose body throws `9`. -/
def throwRoot : Frame :=
  { kind := Kind.plainTask,
    body := Body.throwErr 9,
    status := Status.running }

/-- A machine driving `throwRoot` alone. -/
def throwMachine : Machine :=
  { frames := [throwRoot], syncs := [], callStack := [0], trace := [] }

/-- A running synchronized-task frame, bound to sync object 0, whose body
is `co_return 3`. -/
def syncRoot : Frame :=
  { kind := Kind.syncTask,
    sync := some 0,
    body := Body.retConst 3,
    status := Status.running }

/-- A machine driving `syncRoot` with one sync object at count 0. -/
def syncRootMachine : Machine :=
  { frames := [syncRoot], syncs := [0], callStack := [0], trace := [] }

/-- A task frame already suspended at its final suspension point with the
value `7` in its result slot. -/
def doneLeaf : Frame :=
  { kind := Kind.plainTask,
    result := Storage.value 7,
    body := Body.retConst 7,
    status := Status.final }

/-- Frame 0: `awaitRoot` (awaiting frame 1), being driven; frame 1:
`doneLeaf`, which is already done. -/
def readyAwaitMachine : Machine :=
  { frames := [awaitRoot, doneLeaf], syncs := [], callStack := [0], trace := [] }

theorem step_stack_length_le {m m' : Machine} (h : step m = StepOut.next m') :
    m'.callStack.length ≤ m.callStack.length := by
  unfold step finishFrame at h
  repeat any_goals split at h
  all_goals first
    | exact StepOut.noConfusion h
    | (injection h with h; subst h; simp_all; try omega)

theorem reach_stack_length_le {m m' : Machine} (h : Reach m m') :
    m'.callStack.length ≤ m.callStack.length := by
  induction h with
  | refl => exact Nat.le_refl _
  | tail _ hstep ih => exact Nat.le_trans (step_stack_length_le hstep) ih

theorem step_frames_length {m m' : Machine} (h : step m = StepOut.next m') :
    m'.frames.length = m.frames.length := by
  unfold step finishFrame at h
  repeat any_goals split at h
  all_goals first
    | exact StepOut.noConfusion h
    | (injection h with h; subst h; simp_all)

theorem step_preserves_final_frame {m m' : Machine} {i : Nat} {f : Frame}
    (h : step m = StepOut.next m') (hf : m.frames[i]? = some f)
    (hfin : f.status = Status.final) : m'.frames[i]? = some f := by
  unfold step finishFrame at h
  repeat any_goals split at h
  all_goals first
    | exact StepOut.noConfusion h
    | (injection h with h; subst h;
       simp only [List.getElem?_set]
       repeat' split
       all_goals simp_all [await_ready])

theorem reach_preserves_final_frame {m m' : Machine} {i : Nat} {f : Frame}
    (h : Reach m m') (hf : m.frames[i]? = some f)
    (hfin : f.status = Status.final) : m'.frames[i]? = some f := by
  induction h with
  | refl => exact hf
  | tail _ hstep ih => exact step_preserves_final_frame hstep ih hfin

theorem step_preserves_sync_kind {m m' : Machine} {i : Nat} {f : Frame}
    (h : step m = StepOut.next m') (hf : m.frames[i]? = some f) :
    ∃ f', m'.frames[i]? = some f' ∧ f'.sync = f.sync ∧ f'.kind = f.kind := by
  unfold step finishFrame at h
  repeat any_goals split at h
  all_goals first
    | exact StepOut.noConfusion h
    | (injection h with h; subst h;
       simp only [List.getElem?_set]
       repeat' split
       all_goals first
         | (simp_all; done)
         | (exfalso
            obtain ⟨hlt, -⟩ := List.getElem?_eq_some.mp hf
            try simp only [List.length_set] at *
            omega))

theorem reach_preserves_sync_kind {m m' : Machine} {i : Nat} {f : Frame}
    (h : Reach m m') (hf : m.frames[i]? = some f) :
    ∃ f', m'.frames[i]? = some f' ∧ f'.sync = f.sync ∧ f'.kind = f.kind := by
  induction h with
  | refl => exact ⟨f, hf, rfl, rfl⟩
  | tail _ hstep ih =>
    obtain ⟨g, hg, hsync, hkind⟩ := ih
    obtain ⟨g', hg', hsync', hkind'⟩ := step_preserves_sync_kind hstep hg
    exact ⟨g', hg', hsync'.trans hsync, hkind'.trans hkind⟩

theorem step_goodResults {m m' : Machine} (hg : goodResults m)
    (h : step m = StepOut.next m') : goodResults m' := by
  intro i f hf hfin
  unfold step finishFrame at h
  repeat any_goals split at h
  all_goals first
    | exact StepOut.noConfusion h
    | (injection h with h; subst h;
       simp only [List.getElem?_set] at hf
       repeat' split at hf
       all_goals first
         | (injection hf with hf; subst hf; simp_all [await_ready]; done)
         | exact Option.noConfusion hf
         | exact hg i f hf hfin
         | (exfalso
            obtain ⟨hlt, -⟩ := List.getElem?_eq_some.mp hf
            try simp only [List.length_set] at *
            omega))

theorem reach_goodResults {m m' : Machine} (hg : goodResults m)
    (h : Reach m m') : goodResults m' := by
  induction h with
  | refl => exact hg
  | tail _ hstep ih => exact step_goodResults ih hstep

theorem step_suspInitial {m : Machine} {fid : Nat} {f : Frame} {rs : List Nat}
    (hcs : m.callStack = fid :: rs) (hf : m.frames[fid]? = some f)
    (hst : f.status = Status.suspInitial) :
    step m = StepOut.next { m with
      frames := m.frames.set fid { f with status := Status.running } } := by
  unfold step
  rw [hcs]
  simp [hf, hst]

theorem step_running_act {m : Machine} {fid a : Nat} {f : Frame} {rest : Body}
    {rs : List Nat}
    (hcs : m.callStack = fid :: rs) (hf : m.frames[fid]? = some f)
    (hst : f.status = Status.running) (hb : f.body = Body.act a rest) :
    step m = StepOut.next { m with
      frames := m.frames.set fid { f with body := rest },
      trace := m.trace ++ [Event.action fid a] } := by
  unfold step
  rw [hcs]
  simp [hf, hst, hb]

theorem step_running_ret {m : Machine} {fid : Nat} {f : Frame} {rs : List Nat}
    (hcs : m.callStack = fid :: rs) (hf : m.frames[fid]? = some f)
    (hst : f.status = Status.running) (hb : f.body = Body.ret) :
    step m = finishFrame m fid { f with result := Storage.value f.reg } rs := by
  unfold step
  rw [hcs]
  simp [hf, hst, hb]

theorem step_running_retConst {m : Machine} {fid v : Nat} {f : Frame} {rs : List Nat}
    (hcs : m.callStack = fid :: rs) (hf : m.frames[fid]? = some f)
    (hst : f.status = Status.running) (hb : f.body = Body.retConst v) :
    step m = finishFrame m fid { f with result := Storage.value v } rs := by
  unfold step
  rw [hcs]
  simp [hf, hst, hb]

theorem step_running_throwErr {m : Machine} {fid e : Nat} {f : Frame} {rs : List Nat}
    (hcs : m.callStack = fid :: rs) (hf : m.frames[fid]? = some f)
    (hst : f.status = Status.running) (hb : f.body = Body.throwErr e) :
    step m = finishFrame m fid { f with result := Storage.exn e } rs := by
  unfold step
  rw [hcs]
  simp [hf, hst, hb]

theorem step_await_ready_value {m : Machine} {fid c v : Nat} {f cf : Frame}
    {rest : Body} {rs : List Nat}
    (hcs : m.callStack = fid :: rs) (hf : m.frames[fid]? = some f)
    (hst : f.status = Status.running) (hb : f.body = Body.awaitTask c rest)
    (hcf : m.frames[c]? = some cf) (hkind : cf.kind = Kind.plainTask)
    (hrdy : await_ready cf = true) (hres : cf.result = Storage.value v) :
    step m = StepOut.next { m with
      frames := m.frames.set fid { f with reg := v, body := rest } } := by
  unfold step
  rw [hcs]
  simp [hf, hst, hb, hcf, hkind, hrdy, hres]

theorem step_await_ready_exn {m : Machine} {fid c e : Nat} {f cf : Frame}
    {rest : Body} {rs : List Nat}
    (hcs : m.callStack = fid :: rs) (hf : m.frames[fid]? = some f)
    (hst : f.status = Status.running) (hb : f.body = Body.awaitTask c rest)
    (hcf : m.frames[c]? = some cf) (hkind : cf.kind = Kind.plainTask)
    (hrdy : await_ready cf = true) (hres : cf.result = Storage.exn e) :
    step m = finishFrame m fid { f with result := Storage.exn e, body := rest } rs := by
  unfold step
  rw [hcs]
  simp [hf, hst, hb, hcf, hkind, hrdy, hres]

theorem step_await_suspend {m : Machine} {fid c : Nat} {f cf : Frame}
    {rest : Body} {rs : List Nat}
    (hcs : m.callStack = fid :: rs) (hf : m.frames[fid]? = some f)
    (hst : f.status = Status.running) (hb : f.body = Body.awaitTask c rest)
    (hcf : m.frames[c]? = some cf) (hkind : cf.kind = Kind.plainTask)
    (hrdy : await_ready cf = false) :
    step m = StepOut.next { m with
      frames := (m.frames.set fid
          { f with status := Status.suspAwaiting c, body := rest }).set c
        { cf with continuation := Handle.coro fid },
      callStack := c :: rs } := by
  unfold step
  rw [hcs]
  simp [hf, hst, hb, hcf, hkind, hrdy]

theorem step_resume_await_value {m : Machine} {fid c v : Nat} {f cf : Frame}
    {rs : List Nat}
    (hcs : m.callStack = fid :: rs) (hf : m.frames[fid]? = some f)
    (hst : f.status = Status.suspAwaiting c)
    (hcf : m.frames[c]? = some cf) (hres : cf.result = Storage.value v) :
    step m = StepOut.next { m with
      frames := m.frames.set fid { f with status := Status.running, reg := v } } := by
  unfold step
  rw [hcs]
  simp [hf, hst, hcf, hres]

theorem step_resume_await_exn {m : Machine} {fid c e : Nat} {f cf : Frame}
    {rs : List Nat}
    (hcs : m.callStack = fid :: rs) (hf : m.frames[fid]? = some f)
    (hst : f.status = Status.suspAwaiting c)
    (hcf : m.frames[c]? = some cf) (hres : cf.result = Storage.exn e) :
    step m = finishFrame m fid
      { f with status := Status.running, result := Storage.exn e } rs := by
  unfold step
  rw [hcs]
  simp [hf, hst, hcf, hres]

theorem step_action_mem {m m' : Machine} {i a : Nat}
    (h : step m = StepOut.next m') (hmem : Event.action i a ∈ m'.trace) :
    Event.action i a ∈ m.trace ∨
      (m.callStack.head? = some i ∧
        ∃ f : Frame, m.frames[i]? = some f ∧ f.status = Status.running) := by
  unfold step finishFrame at h
  repeat any_goals split at h
  all_goals first
    | exact StepOut.noConfusion h
    | (injection h with h; subst h; simp_all; done)
    | (injection h with h; subst h
       simp only [List.mem_append, List.mem_singleton] at hmem
       rcases hmem with hmem | hmem
       · exact Or.inl hmem
       · first
         | exact Event.noConfusion hmem
         | (injection hmem with h1 h2; subst h1; subst h2
            exact Or.inr ⟨by simp_all, _, by assumption, by simp_all⟩))

theorem step_notify_mem {m m' : Machine} {s : Nat}
    (h : step m = StepOut.next m') (hmem : Event.notifyDone s ∈ m'.trace) :
    Event.notifyDone s ∈ m.trace ∨
      (∃ fid : Nat, m.callStack.head? = some fid ∧ fid < m'.frames.length ∧
        ∀ f' : Frame, m'.frames[fid]? = some f' → f'.kind = Kind.syncTask ∧
          f'.sync = some s ∧ f'.status = Status.final ∧
          f'.result ≠ Storage.empty) := by
  unfold step finishFrame at h
  repeat any_goals split at h
  all_goals first
    | exact StepOut.noConfusion h
    | (injection h with h; subst h; simp_all; done)
    | (injection h with h; subst h
       simp only [List.mem_append, List.mem_singleton] at hmem
       rcases hmem with hmem | hmem
       · exact Or.inl hmem
       · first
         | exact Event.noConfusion hmem
         | (injection hmem with h1; subst h1
            refine Or.inr ⟨?i0, ?g1, ?g2, ?g3⟩
            case g1 =>
              rw [show m.callStack = _ :: _ from by assumption]
              exact rfl
            case g2 =>
              simp only [List.length_set]
              exact List.getElem?_eq_some.mp (by assumption) |>.1
            case g3 =>
              intro f' hf'
              simp only [List.getElem?_set_self'] at hf'
              try simp_all
              try subst hf'
              try simp_all))

theorem step_suspInitial_frame {m m' : Machine} {i : Nat} {f : Frame}
    (h : step m = StepOut.next m') (hf : m.frames[i]? = some f)
    (hsusp : f.status = Status.suspInitial) (hhead : m.callStack.head? ≠ some i) :
    ∀ f' : Frame, m'.frames[i]? = some f' → f'.status = Status.suspInitial ∧
      f'.body = f.body ∧ f'.result = f.result := by
  unfold step finishFrame at h
  repeat any_goals split at h
  all_goals first
    | exact StepOut.noConfusion h
    | (injection h with h; subst h
       intro f' hf'
       simp only [List.getElem?_set] at hf'
       repeat' split at hf'
       all_goals first
         | (injection hf' with hf'; subst hf'; simp_all; done)
         | exact Option.noConfusion hf'
         | (rw [hf] at hf'; injection hf' with hf'; subst hf'; simp_all; done)
         | (simp_all; done))

theorem run_next {m m1 : Machine} {n : Nat} (hs : step m = StepOut.next m1) :
    run (n + 1) m = run n m1 := by
  simp [run, hs]

theorem step_halt {m : Machine} (h : m.callStack = []) : step m = StepOut.halt := by
  unfold step
  rw [h]

theorem run_finished_of_empty {m : Machine} {n : Nat} (h : m.callStack = []) :
    run (n + 1) m = RunRes.finished m := by
  simp [run, step_halt h]

/-- Driving a coroutine that awaits each of the tasks `cs` in turn (all of
them immediately completing) runs to completion in `4 * cs.length + 2`
machine steps, leaving the driving frame at its final suspension point
with the last awaited value as its result.  The fuel bound is exact: every
`co_await` of a fresh task costs four machine steps (symmetric transfer
into the child, the child's initial-suspend resumption, the child's
completion and transfer back, and the `await_resume`). -/
theorem chain_run (cs : List (Nat × Nat)) :
    ∀ (m : Machine) (r : Nat) (f : Frame),
    m.callStack = [r] → m.frames[r]? = some f →
    f.kind = Kind.plainTask → f.continuation = Handle.noop →
    f.status = Status.running → f.body = chainBody (cs.map Prod.fst) →
    (∀ p ∈ cs, m.frames[p.1]? = some (pendingLeaf p.2)) →
    (cs.map Prod.fst).Nodup → (∀ p ∈ cs, p.1 ≠ r) →
    ∃ m' : Machine, run (4 * cs.length + 2) m = RunRes.finished m' ∧
      ∃ f' : Frame, m'.frames[r]? = some f' ∧ f'.status = Status.final ∧
        f'.result = Storage.value ((cs.map Prod.snd).getLastD f.reg) := by
  induction cs with
  | nil =>
    intro m r f hcs hr hkind hcont hst hb hleaf hnodup hnr
    have hrlt : r < m.frames.length := (List.getElem?_eq_some.mp hr).1
    set F1 : Frame :=
      { f with result := Storage.value f.reg, status := Status.final } with hF1
    set m1 : Machine :=
      { m with frames := m.frames.set r F1, callStack := [] } with hm1
    have hstep1 : step m = StepOut.next m1 := by
      rw [step_running_ret hcs hr hst hb]
      unfold finishFrame
      simp [hkind, hcont, hm1, hF1]
    refine ⟨m1, ?_, F1, ?_, rfl, rfl⟩
    · show run 2 m = RunRes.finished m1
      rw [show (2 : Nat) = 1 + 1 from rfl, run_next hstep1]
      exact run_finished_of_empty rfl
    · exact List.getElem?_set_eq hrlt
  | cons p cs ih =>
    intro m r f hcs hr hkind hcont hst hb hleaf hnodup hnr
    obtain ⟨c, v⟩ := p
    have hrlt : r < m.frames.length := (List.getElem?_eq_some.mp hr).1
    have hcne : c ≠ r := hnr (c, v) (List.mem_cons_self _ _)
    have hcf : m.frames[c]? = some (pendingLeaf v) :=
      hleaf (c, v) (List.mem_cons_self _ _)
    have hclt : c < m.frames.length := (List.getElem?_eq_some.mp hcf).1
    have hb1 : f.body = Body.awaitTask c (chainBody (cs.map Prod.fst)) := by
      rw [hb]; rfl
    -- step 1: awaiter::await_suspend, symmetric transfer into the child
    have hstep1 := step_await_suspend hcs hr hst hb1 hcf rfl rfl
    set f1 : Frame :=
      { f with status := Status.suspAwaiting c, body := chainBody (cs.map Prod.fst) }
      with hf1
    set g1 : Frame := { pendingLeaf v with continuation := Handle.coro r } with hg1
    set m1 : Machine :=
      { m with frames := (m.frames.set r f1).set c g1, callStack := [c] } with hm1
    -- step 2: the child's initial-suspend resumption
    have hg1look : m1.frames[c]? = some g1 := by
      rw [hm1]
      exact List.getElem?_set_eq (by simpa using hclt)
    have hstep2 := step_suspInitial (rfl : m1.callStack = c :: []) hg1look rfl
    set g2 : Frame := { g1 with status := Status.running } with hg2
    set m2 : Machine := { m1 with frames := m1.frames.set c g2 } with hm2
    -- step 3: the child returns its value and transfers to its continuation
    have hg2look : m2.frames[c]? = some g2 := by
      rw [hm2]
      refine List.getElem?_set_eq ?_
      simp [hm1]
      exact hclt
    have hstep3raw := step_running_retConst (rfl : m2.callStack = c :: [])
      hg2look rfl rfl
    set g3 : Frame :=
      { g2 with result := Storage.value v, status := Status.final } with hg3
    set m3 : Machine :=
      { m2 with frames := m2.frames.set c g3, callStack := [r] } with hm3
    have hstep3 : step m2 = StepOut.next m3 := by
      rw [hstep3raw]
      unfold finishFrame
      rfl
    -- step 4: await_resume in the driving frame
    have hf1look3 : m3.frames[r]? = some f1 := by
      rw [hm3, hm2, hm1]
      show ((((m.frames.set r f1).set c g1).set c g2).set c g3)[r]? = some f1
      rw [List.getElem?_set_ne hcne, List.getElem?_set_ne hcne,
        List.getElem?_set_ne hcne]
      exact List.getElem?_set_eq hrlt
    have hg3look : m3.frames[c]? = some g3 := by
      rw [hm3]
      refine List.getElem?_set_eq ?_
      simp [hm2, hm1]
      exact hclt
    have hstep4 := step_resume_await_value (rfl : m3.callStack = r :: [])
      hf1look3 rfl hg3look rfl
    set f4 : Frame := { f1 with status := Status.running, reg := v } with hf4
    set m4 : Machine := { m3 with frames := m3.frames.set r f4 } with hm4
    -- the tail of the chain, by the induction hypothesis
    have hlen4 : m4.frames.length = m.frames.length := by
      simp [hm4, hm3, hm2, hm1]
    have hr4 : m4.frames[r]? = some f4 := by
      rw [hm4]
      refine List.getElem?_set_eq ?_
      rw [show m3.frames.length = m.frames.length from by simp [hm3, hm2, hm1]]
      exact hrlt
    have hleaf4 : ∀ p ∈ cs, m4.frames[p.1]? = some (pendingLeaf p.2) := by
      intro p hp
      have hpne_r : p.1 ≠ r := hnr p (List.mem_cons_of_mem _ hp)
      have hpne_c : p.1 ≠ c := by
        intro hcontra
        have : c ∈ cs.map Prod.fst := by
          rw [← hcontra]
          exact List.mem_map_of_mem Prod.fst hp
        exact (List.nodup_cons.mp (by simpa using hnodup)).1 this
      rw [hm4, hm3, hm2, hm1]
      show (((((m.frames.set r f1).set c g1).set c g2).set c g3).set r f4)[p.1]?
        = some (pendingLeaf p.2)
      rw [List.getElem?_set_ne (Ne.symm hpne_r),
        List.getElem?_set_ne (Ne.symm hpne_c),
        List.getElem?_set_ne (Ne.symm hpne_c),
        List.getElem?_set_ne (Ne.symm hpne_c),
        List.getElem?_set_ne (Ne.symm hpne_r)]
      exact hleaf p (List.mem_cons_of_mem _ hp)
    obtain ⟨m', hrun, f', hf'look, hf'status, hf'result⟩ :=
      ih m4 r f4 rfl hr4 hkind hcont rfl rfl hleaf4
        (List.nodup_cons.mp (by simpa using hnodup)).2
        (fun p hp => hnr p (List.mem_cons_of_mem _ hp))
    refine ⟨m', ?_, f', hf'look, hf'status, ?_⟩
    · rw [show 4 * List.length ((c, v) :: cs) + 2 =
          4 * List.length cs + 2 + 1 + 1 + 1 + 1 from by simp; omega]
      rw [run_next hstep1, run_next hstep2, run_next hstep3, run_next hstep4]
      exact hrun
    · rw [hf'result]
      show Storage.value ((cs.map Prod.snd).getLastD v) = _
      rw [show (((c, v) :: cs).map Prod.snd).getLastD f.reg
          = (cs.map Prod.snd).getLastD v from by
        rw [List.map_cons]
        exact List.getLastD_cons f.reg v _]

theorem run_finished_reach {fuel : Nat} :
    ∀ {m m' : Machine}, run fuel m = RunRes.finished m' → Reach m m' := by
  induction fuel with
  | zero =>
    intro m m' h
    simp [run] at h
  | succ n ih =>
    intro m m' h
    unfold run at h
    cases hs : step m with
    | halt =>
      rw [hs] at h
      injection h with h
      subst h
      exact Relation.ReflTransGen.refl
    | fault =>
      rw [hs] at h
      exact RunRes.noConfusion h
    | next m1 =>
      rw [hs] at h
      exact Relation.ReflTransGen.head hs (ih h)

theorem chainMachine_runs (n : Nat) :
    ∃ m' : Machine, run (4 * n + 2) (chainMachine n) = RunRes.finished m' ∧
      ∃ f' : Frame, m'.frames[0]? = some f' ∧ f'.status = Status.final := by
  have h := chain_run ((List.range n).map (fun i => (i + 1, i + 1)))
    (chainMachine n) 0
    { kind := Kind.plainTask,
      body := chainBody ((List.range n).map (fun i => i + 1)),
      status := Status.running }
    rfl (by unfold chainMachine chainFrames; exact List.getElem?_cons_zero)
    rfl rfl rfl
    (by simp [List.map_map]; rfl)
    (by
      intro p hp
      obtain ⟨i, hi, rfl⟩ := List.mem_map.mp hp
      have hi' : i < n := List.mem_range.mp hi
      show (chainFrames n)[i + 1]? = some (pendingLeaf (i + 1))
      unfold chainFrames
      rw [List.getElem?_cons_succ, List.getElem?_map, List.getElem?_range hi']
      rfl)
    (by
      simp only [List.map_map]
      refine List.Nodup.map ?_ (List.nodup_range n)
      intro a b hab
      simpa using hab)
    (by
      intro p hp
      obtain ⟨i, hi, rfl⟩ := List.mem_map.mp hp
      simp)
  obtain ⟨m', hrun, f', hlook, hstatus, hres⟩ := h
  refine ⟨m', ?_, f', hlook, hstatus⟩
  rw [show 4 * n + 2 = 4 * List.length ((List.range n).map (fun i => (i + 1, i + 1))) + 2
      from by simp]
  exact hrun

/-- Claim C1: `sync_await` builds a binary-semaphore sync object with
initial count 0, wraps the awaitable in a synchronized task, starts it
with the semaphore, blocks acquiring the semaphore, and then retrieves
the result on the calling thread: for every `v`, `sync_await` of a task
whose body returns `v` returns `v` (in particular `42` for a body
returning `42`), and for every `e`, `sync_await` of a task whose body
throws `e` rethrows the same `e`. -/
theorem c1_sync_await_bridge (v e : Nat) :
    sync_await 20 (oneTaskMachine v) 0 = some (Except.ok v) ∧
    sync_await 20 (oneThrowMachine e) 0 = some (Except.error e) :=
  ⟨rfl, rfl⟩

/-- Claim C2: awaiting a not-done task stores the awaiting coroutine's
handle as the task's continuation and returns the task's handle from
`await_suspend`, replacing the top of the native call stack instead of
pushing (symmetric transfer, not a nested call); no machine step ever
grows the native call stack; and for every `N`, the chain
`co_await t1; ...; co_await tN` over immediately-completing tasks runs to
completion with the native call stack never exceeding depth 1,
independent of `N`. -/
theorem c2_symmetric_transfer_stack_bound :
    (∀ m m' : Machine, step m = StepOut.next m' →
      m'.callStack.length ≤ m.callStack.length) ∧
    (∀ (m : Machine) (fid c : Nat) (f cf : Frame) (rest : Body) (rs : List Nat),
      m.callStack = fid :: rs → m.frames[fid]? = some f →
      f.status = Status.running → f.body = Body.awaitTask c rest →
      m.frames[c]? = some cf → cf.kind = Kind.plainTask →
      await_ready cf = false →
      step m = StepOut.next { m with
        frames := (m.frames.set fid
            { f with status := Status.suspAwaiting c, body := rest }).set c
          { cf with continuation := Handle.coro fid },
        callStack := c :: rs }) ∧
    (∀ n : Nat,
      (∃ m' : Machine, run (4 * n + 2) (chainMachine n) = RunRes.finished m' ∧
        ∃ f' : Frame, m'.frames[0]? = some f' ∧ f'.status = Status.final) ∧
      ∀ mi : Machine, Reach (chainMachine n) mi → mi.callStack.length ≤ 1) := by
  refine ⟨fun m m' h => step_stack_length_le h, ?_, ?_⟩
  · intro m fid c f cf rest rs hcs hf hst hb hcf hkind hrdy
    exact step_await_suspend hcs hf hst hb hcf hkind hrdy
  · intro n
    refine ⟨chainMachine_runs n, fun mi h => ?_⟩
    simpa using reach_stack_length_le h

/-- Claim C2 witness: awaiting the pending task in `awaitPairMachine`
stores the awaiting frame 0 as the continuation of frame 1 and transfers
control to frame 1 without growing the stack. -/
theorem c2_witness :
    step awaitPairMachine = StepOut.next { awaitPairMachine with
      frames := (awaitPairMachine.frames.set 0
          { awaitRoot with status := Status.suspAwaiting 1, body := Body.ret }).set 1
        { pendingLeaf 5 with continuation := Handle.coro 0 },
      callStack := [1] } :=
  c2_symmetric_transfer_stack_bound.2.1 awaitPairMachine 0 1 awaitRoot
    (pendingLeaf 5) Body.ret [] rfl rfl rfl rfl rfl rfl rfl

/-- Claim C3: a task (and a synchronized task) is suspended at its entry
point upon creation — creation leaves the event trace unchanged and the
new frame is at the initial suspension point — and no side effect of the
body occurs while the task stays unawaited and unstarted: a machine step
neither changes such a frame's status or body nor appends any body action
of it to the trace. -/
theorem c3_creation_is_lazy :
    (∀ (m : Machine) (b : Body),
      (mkTask m b).1.trace = m.trace ∧
      (mkTask m b).1.frames[(mkTask m b).2]? =
        some { kind := Kind.plainTask, body := b, status := Status.suspInitial }) ∧
    (∀ (m : Machine) (aid : Nat),
      (make_synchronized_task m aid).1.trace = m.trace ∧
      (make_synchronized_task m aid).1.frames[(make_synchronized_task m aid).2]? =
        some { kind := Kind.syncTask, body := Body.awaitTask aid Body.ret,
               status := Status.suspInitial }) ∧
    (∀ (m m' : Machine) (i : Nat) (f : Frame),
      step m = StepOut.next m' → m.frames[i]? = some f →
      f.status = Status.suspInitial → m.callStack.head? ≠ some i →
      (∀ f' : Frame, m'.frames[i]? = some f' → f'.status = Status.suspInitial ∧
        f'.body = f.body ∧ f'.result = f.result) ∧
      (∀ a : Nat, Event.action i a ∈ m'.trace → Event.action i a ∈ m.trace)) := by
  refine ⟨?_, ?_, ?_⟩
  · intro m b
    exact ⟨rfl, List.getElem?_concat_length _ _⟩
  · intro m aid
    exact ⟨rfl, List.getElem?_concat_length _ _⟩
  · intro m m' i f hstep hf hsusp hhead
    refine ⟨step_suspInitial_frame hstep hf hsusp hhead, ?_⟩
    intro a hmem
    rcases step_action_mem hstep hmem with hin | ⟨hhd, _⟩
    · exact hin
    · exact absurd hhd hhead

/-- Claim C3 witness: in the step taken from `awaitPairMachine`, frame 1
(a created-but-not-yet-driven task) keeps its entry-point suspension, body
and empty result, and no body action of frame 1 is emitted. -/
theorem c3_witness :
    (∀ f' : Frame,
      ({ awaitPairMachine with
        frames := (awaitPairMachine.frames.set 0
            { awaitRoot with status := Status.suspAwaiting 1, body := Body.ret }).set 1
          { pendingLeaf 5 with continuation := Handle.coro 0 },
        callStack := [1] } : Machine).frames[1]? = some f' →
      f'.status = Status.suspInitial ∧ f'.body = (pendingLeaf 5).body ∧
        f'.result = (pendingLeaf 5).result) ∧
    (∀ a : Nat, Event.action 1 a ∈ ({ awaitPairMachine with
        frames := (awaitPairMachine.frames.set 0
            { awaitRoot with status := Status.suspAwaiting 1, body := Body.ret }).set 1
          { pendingLeaf 5 with continuation := Handle.coro 0 },
        callStack := [1] } : Machine).trace →
      Event.action 1 a ∈ awaitPairMachine.trace) :=
  c3_creation_is_lazy.2.2 awaitPairMachine _ 1 (pendingLeaf 5) rfl rfl rfl (by decide)

/-- Claim C4: when a task's body finishes — returning a value or raising
an error — the frame always suspends once more (status `final`) and no
machine step ever destroys a frame (the frame list never shrinks); at that
final suspension point control passes by symmetric transfer to the stored
continuation handle, and when the continuation is still the no-op sentinel
`Handle.noop`, resuming it does nothing (control merely returns to the
resumer, popping the native stack). -/
theorem c4_final_suspension :
    (∀ m m' : Machine, step m = StepOut.next m' →
      m'.frames.length = m.frames.length) ∧
    (∀ (m : Machine) (fid v : Nat) (f : Frame) (rs : List Nat),
      m.callStack = fid :: rs → m.frames[fid]? = some f →
      f.status = Status.running → f.body = Body.retConst v →
      f.kind = Kind.plainTask → f.continuation = Handle.noop →
      step m = StepOut.next { m with
        frames := m.frames.set fid
          { f with result := Storage.value v, status := Status.final },
        callStack := rs }) ∧
    (∀ (m : Machine) (fid v k : Nat) (f : Frame) (rs : List Nat),
      m.callStack = fid :: rs → m.frames[fid]? = some f →
      f.status = Status.running → f.body = Body.retConst v →
      f.kind = Kind.plainTask → f.continuation = Handle.coro k →
      step m = StepOut.next { m with
        frames := m.frames.set fid
          { f with result := Storage.value v, status := Status.final },
        callStack := k :: rs }) ∧
    (∀ (m : Machine) (fid e k : Nat) (f : Frame) (rs : List Nat),
      m.callStack = fid :: rs → m.frames[fid]? = some f →
      f.status = Status.running → f.body = Body.throwErr e →
      f.kind = Kind.plainTask → f.continuation = Handle.coro k →
      step m = StepOut.next { m with
        frames := m.frames.set fid
          { f with result := Storage.exn e, status := Status.final },
        callStack := k :: rs }) := by
  refine ⟨fun m m' h => step_frames_length h, ?_, ?_, ?_⟩
  · intro m fid v f rs hcs hf hst hb hkind hcont
    rw [step_running_retConst hcs hf hst hb]
    unfold finishFrame
    simp [hkind, hcont]
  · intro m fid v k f rs hcs hf hst hb hkind hcont
    rw [step_running_retConst hcs hf hst hb]
    unfold finishFrame
    simp [hkind, hcont]
  · intro m fid e k f rs hcs hf hst hb hkind hcont
    rw [step_running_throwErr hcs hf hst hb]
    unfold finishFrame
    simp [hkind, hcont]

/-- Claim C4 witness: a lone running task whose continuation is still the
no-op sentinel finishes `co_return 3`, suspends at `final` with its frame
intact, and control simply returns to the driver (the sentinel does
nothing). -/
theorem c4_witness :
    step { frames := [{ kind := Kind.plainTask,
                        body := Body.retConst 3,
                        status := Status.running }],
           syncs := [], callStack := [0], trace := [] } =
    StepOut.next { frames := [({ kind := Kind.plainTask,
                                 body := Body.retConst 3,
                                 status := Status.running } : Frame)].set 0
                     { kind := Kind.plainTask,
                       result := Storage.value 3,
                       body := Body.retConst 3,
                       status := Status.final },
                   syncs := [], callStack := [], trace := [] } :=
  c4_final_suspension.2.1 _ 0 3
    { kind := Kind.plainTask, body := Body.retConst 3, status := Status.running }
    [] rfl rfl rfl rfl rfl rfl

set_option maxHeartbeats 4000000 in
theorem failChain_sync_await (e : Nat) :
    sync_await 30 (failChain e) 1 = some (Except.error e) := rfl

/-- Claim C5: an error raised in a task's body is captured into the
result slot and the frame proceeds to its final suspension like a normal
completion (nothing propagates out of the frame); a coroutine resumed
from awaiting a failed child captures the very same error code
unmodified; and across the whole stack of layers — a task chain, the
synchronized task, and the `sync_await` bridge — the original error `e`
is what the final observer receives. -/
theorem c5_error_propagation :
    (∀ (m : Machine) (fid e : Nat) (f : Frame) (rs : List Nat),
      m.callStack = fid :: rs → m.frames[fid]? = some f →
      f.status = Status.running → f.body = Body.throwErr e →
      f.kind = Kind.plainTask →
      ∃ m' : Machine, step m = StepOut.next m' ∧
        m'.frames[fid]? =
          some { f with result := Storage.exn e, status := Status.final }) ∧
    (∀ (m : Machine) (fid c e : Nat) (f cf : Frame) (rs : List Nat),
      m.callStack = fid :: rs → m.frames[fid]? = some f →
      f.status = Status.suspAwaiting c → m.frames[c]? = some cf →
      cf.result = Storage.exn e → f.kind = Kind.plainTask →
      ∃ m' : Machine, step m = StepOut.next m' ∧
        m'.frames[fid]? =
          some { f with result := Storage.exn e, status := Status.final }) ∧
    (∀ e : Nat, sync_await 30 (failChain e) 1 = some (Except.error e)) := by
  refine ⟨?_, ?_, failChain_sync_await⟩
  · intro m fid e f rs hcs hf hst hb hkind
    have hlt : fid < m.frames.length := (List.getElem?_eq_some.mp hf).1
    rw [step_running_throwErr hcs hf hst hb]
    unfold finishFrame
    cases hcont : f.continuation with
    | noop =>
      refine ⟨{ m with
          frames := m.frames.set fid
            { f with continuation := Handle.noop, result := Storage.exn e,
                     status := Status.final },
          callStack := rs }, ?_, List.getElem?_set_eq hlt⟩
      simp [hkind, hcont]
    | coro k =>
      refine ⟨{ m with
          frames := m.frames.set fid
            { f with continuation := Handle.coro k, result := Storage.exn e,
                     status := Status.final },
          callStack := k :: rs }, ?_, List.getElem?_set_eq hlt⟩
      simp [hkind, hcont]
  · intro m fid c e f cf rs hcs hf hst hcf hres hkind
    have hlt : fid < m.frames.length := (List.getElem?_eq_some.mp hf).1
    rw [step_resume_await_exn hcs hf hst hcf hres]
    unfold finishFrame
    cases hcont : f.continuation with
    | noop =>
      refine ⟨{ m with
          frames := m.frames.set fid
            { f with continuation := Handle.noop, result := Storage.exn e,
                     status := Status.final },
          callStack := rs }, ?_, List.getElem?_set_eq hlt⟩
      simp [hkind, hcont]
    | coro k =>
      refine ⟨{ m with
          frames := m.frames.set fid
            { f with continuation := Handle.coro k, result := Storage.exn e,
                     status := Status.final },
          callStack := k :: rs }, ?_, List.getElem?_set_eq hlt⟩
      simp [hkind, hcont]

/-- Claim C5 witness: the driven frame of `throwMachine` captures error
`9` into its result slot and suspends finally. -/
theorem c5_witness :
    ∃ m' : Machine, step throwMachine = StepOut.next m' ∧
      m'.frames[0]? =
        some { throwRoot with result := Storage.exn 9, status := Status.final } :=
  c5_error_propagation.1 throwMachine 0 9 throwRoot [] rfl rfl rfl rfl rfl

/-- Claim C6: `start(s)` first binds the sync object into the promise and
then performs the first resumption (the started frame, already bound, is
pushed as the new head of the native stack); a notification event is only
ever emitted by a step that leaves the head frame a synchronized-task
frame at its final suspension point with a populated result slot — never
before the body has finished; and in the concrete started scenario the
notification happens exactly once, after the body's side effect. -/
theorem c6_start_and_notify :
    (∀ (m : Machine) (fid sid : Nat) (f : Frame), m.frames[fid]? = some f →
      (start m fid sid).frames[fid]? = some { f with sync := some sid } ∧
      (start m fid sid).callStack = fid :: m.callStack) ∧
    (∀ (m m' : Machine) (s : Nat), step m = StepOut.next m' →
      Event.notifyDone s ∈ m'.trace → Event.notifyDone s ∈ m.trace ∨
      (∃ fid : Nat, m.callStack.head? = some fid ∧ fid < m'.frames.length ∧
        ∀ f' : Frame, m'.frames[fid]? = some f' → f'.kind = Kind.syncTask ∧
          f'.sync = some s ∧ f'.status = Status.final ∧
          f'.result ≠ Storage.empty)) ∧
    runTrace 30 startedSyncMachine = some [Event.action 0 7, Event.notifyDone 0] := by
  refine ⟨?_, fun m m' s h hmem => step_notify_mem h hmem, rfl⟩
  intro m fid sid f hf
  have hlt : fid < m.frames.length := (List.getElem?_eq_some.mp hf).1
  unfold start
  rw [hf]
  exact ⟨List.getElem?_set_eq hlt, rfl⟩

/-- Claim C6 witness: starting the synchronized task of
`startedSyncMachine` before its run binds sync object 0 into frame 1 and
pushes frame 1. -/
theorem c6_witness :
    (start (mkSyncObject (make_synchronized_task
        (mkTask emptyMachine (Body.act 7 (Body.retConst 42))).1 0).1).1 1 0).frames[1]? =
      some { kind := Kind.syncTask,
             sync := some 0,
             body := Body.awaitTask 0 Body.ret,
             status := Status.suspInitial } ∧
    (start (mkSyncObject (make_synchronized_task
        (mkTask emptyMachine (Body.act 7 (Body.retConst 42))).1 0).1).1 1 0).callStack =
      1 :: [] :=
  c6_start_and_notify.1 _ 1 0
    { kind := Kind.syncTask, body := Body.awaitTask 0 Body.ret,
      status := Status.suspInitial } rfl

/-- Claim C7: the awaiter's ready check is true exactly when the awaited
task's coroutine is done (suspended at its final suspension point); when
it is true, the awaiting coroutine does not suspend — the await is
consumed in place, the call stack and every other frame untouched — and
the result is available immediately (the result slot of a done frame is
never empty). -/
theorem c7_await_ready_iff_done :
    (∀ f : Frame, await_ready f = true ↔ f.status = Status.final) ∧
    (∀ (m : Machine) (fid c : Nat) (f cf : Frame) (rest : Body) (rs : List Nat),
      goodResults m → m.callStack = fid :: rs → m.frames[fid]? = some f →
      f.status = Status.running → f.body = Body.awaitTask c rest →
      m.frames[c]? = some cf → cf.kind = Kind.plainTask →
      await_ready cf = true →
      cf.result ≠ Storage.empty ∧
      ∀ v : Nat, cf.result = Storage.value v →
        step m = StepOut.next { m with
          frames := m.frames.set fid { f with reg := v, body := rest } }) := by
  refine ⟨?_, ?_⟩
  · intro f
    simp [await_ready]
  · intro m fid c f cf rest rs hgood hcs hf hst hb hcf hkind hrdy
    have hfin : cf.status = Status.final := by
      simpa [await_ready] using hrdy
    refine ⟨hgood c cf hcf hfin, fun v hres => ?_⟩
    exact step_await_ready_value hcs hf hst hb hcf hkind hrdy hres

/-- Claim C7 witness: in `readyAwaitMachine`, awaiting the already-done
frame 1 finds its result available and continues without suspending. -/
theorem c7_witness :
    doneLeaf.result ≠ Storage.empty ∧
    ∀ v : Nat, doneLeaf.result = Storage.value v →
      step readyAwaitMachine = StepOut.next { readyAwaitMachine with
        frames := readyAwaitMachine.frames.set 0
          { awaitRoot with reg := v, body := Body.ret } } :=
  c7_await_ready_iff_done.2 readyAwaitMachine 0 1 awaitRoot doneLeaf Body.ret []
    (by
      intro i f hf hfin
      match i with
      | 0 =>
        injection hf with hf
        subst hf
        exact absurd hfin (by decide)
      | 1 =>
        injection hf with hf
        subst hf
        decide
      | n + 2 => exact Option.noConfusion hf)
    rfl rfl rfl rfl rfl rfl rfl

/-- Claim C8: a frame that is done never changes again under any machine
step; re-awaiting a done task takes the ready path, which reads the
cached result and leaves the done task's frame, the trace, and the call
stack untouched (the awaiting frame cannot be the done frame itself); and
in the concrete double-await run the side effect of the body appears
exactly once in the trace while the value is observed twice and returned.
-/
theorem c8_idempotent_observation :
    (∀ (m m' : Machine) (i : Nat) (f : Frame), step m = StepOut.next m' →
      m.frames[i]? = some f → f.status = Status.final →
      m'.frames[i]? = some f) ∧
    (∀ (m : Machine) (fid c v : Nat) (f cf : Frame) (rest : Body) (rs : List Nat),
      m.callStack = fid :: rs → m.frames[fid]? = some f →
      f.status = Status.running → f.body = Body.awaitTask c rest →
      m.frames[c]? = some cf → cf.kind = Kind.plainTask →
      await_ready cf = true → cf.result = Storage.value v →
      fid ≠ c ∧
      step m = StepOut.next { m with
        frames := m.frames.set fid { f with reg := v, body := rest } }) ∧
    (runTrace 12 doubleAwaitMachine = some [Event.action 0 7] ∧
      runResult 12 doubleAwaitMachine 1 = some (Storage.value 42)) := by
  refine ⟨fun m m' i f h hf hfin => step_preserves_final_frame h hf hfin,
    ?_, rfl, rfl⟩
  intro m fid c v f cf rest rs hcs hf hst hb hcf hkind hrdy hres
  refine ⟨?_, step_await_ready_value hcs hf hst hb hcf hkind hrdy hres⟩
  intro hcontra
  subst hcontra
  rw [hf] at hcf
  injection hcf with hcf
  subst hcf
  simp [await_ready, hst] at hrdy

/-- Claim C8 witness: re-awaiting the done frame 1 of `readyAwaitMachine`
reads the cached value 7 in place. -/
theorem c8_witness :
    0 ≠ 1 ∧
    step readyAwaitMachine = StepOut.next { readyAwaitMachine with
      frames := readyAwaitMachine.frames.set 0
        { awaitRoot with reg := 7, body := Body.ret } } :=
  c8_idempotent_observation.2.1 readyAwaitMachine 0 1 7 awaitRoot doneLeaf
    Body.ret [] rfl rfl rfl rfl rfl rfl rfl rfl

/-- Claim C9: a synchronized task's sync pointer is null (`none`) at
creation; `start` assigns the address of the given sync object and only
then pushes the frame for its first resumption; no machine step (hence no
finished run) ever changes a frame's sync pointer; and when the final
awaiter's suspend callback runs with the pointer set, the step succeeds
and performs the notification — it never dereferences a null pointer. -/
theorem c9_sync_pointer_never_null :
    (∀ (m : Machine) (aid : Nat),
      (make_synchronized_task m aid).1.frames[(make_synchronized_task m aid).2]? =
        some { kind := Kind.syncTask,
               sync := none,
               body := Body.awaitTask aid Body.ret,
               status := Status.suspInitial }) ∧
    (∀ (m : Machine) (fid sid : Nat) (f : Frame), m.frames[fid]? = some f →
      (start m fid sid).frames[fid]? = some { f with sync := some sid } ∧
      (start m fid sid).callStack = fid :: m.callStack) ∧
    (∀ (fuel : Nat) (m m' : Machine) (i : Nat) (f : Frame),
      run fuel m = RunRes.finished m' → m.frames[i]? = some f →
      ∃ f' : Frame, m'.frames[i]? = some f' ∧ f'.sync = f.sync) ∧
    (∀ (m : Machine) (fid v sid : Nat) (f : Frame) (rs : List Nat),
      m.callStack = fid :: rs → m.frames[fid]? = some f →
      f.status = Status.running → f.body = Body.retConst v →
      f.kind = Kind.syncTask → f.sync = some sid →
      step m = StepOut.next { m with
        frames := m.frames.set fid
          { f with result := Storage.value v, status := Status.final },
        syncs := m.syncs.set sid (m.syncs.getD sid 0 + 1),
        trace := m.trace ++ [Event.notifyDone sid],
        callStack := rs }) := by
  refine ⟨?_, ?_, ?_, ?_⟩
  · intro m aid
    exact List.getElem?_concat_length _ _
  · intro m fid sid f hf
    have hlt : fid < m.frames.length := (List.getElem?_eq_some.mp hf).1
    unfold start
    rw [hf]
    exact ⟨List.getElem?_set_eq hlt, rfl⟩
  · intro fuel m m' i f hrun hf
    obtain ⟨f', h1, h2, -⟩ :=
      reach_preserves_sync_kind (run_finished_reach hrun) hf
    exact ⟨f', h1, h2⟩
  · intro m fid v sid f rs hcs hf hst hb hkind hsync
    rw [step_running_retConst hcs hf hst hb]
    unfold finishFrame
    simp [hkind, hsync]

/-- Claim C9 witness: the bound sync frame of `syncRootMachine` finishes
and notifies sync object 0 without faulting. -/
theorem c9_witness :
    step syncRootMachine = StepOut.next { syncRootMachine with
      frames := syncRootMachine.frames.set 0
        { syncRoot with result := Storage.value 3, status := Status.final },
      syncs := syncRootMachine.syncs.set 0
        (syncRootMachine.syncs.getD 0 0 + 1),
      trace := syncRootMachine.trace ++ [Event.notifyDone 0],
      callStack := [] } :=
  c9_sync_pointer_never_null.2.2.2 syncRootMachine 0 3 0 syncRoot []
    rfl rfl rfl rfl rfl rfl

/-- Claim C10: a task's stored continuation starts as the no-op sentinel;
each `await_suspend` of an awaiter on the not-yet-done task overwrites the
stored continuation with the newest awaiting coroutine's handle, whatever
was stored before, and transfers control into the task; and the final
suspension transfers control exactly to the currently stored (most
recent) handle. -/
theorem c10_continuation_overwrite :
    (∀ (m : Machine) (b : Body),
      (mkTask m b).1.frames[(mkTask m b).2]? =
        some { kind := Kind.plainTask,
               continuation := Handle.noop,
               body := b,
               status := Status.suspInitial }) ∧
    (∀ (m : Machine) (fid c : Nat) (f cf : Frame) (rest : Body) (rs : List Nat),
      m.callStack = fid :: rs → m.frames[fid]? = some f →
      f.status = Status.running → f.body = Body.awaitTask c rest →
      m.frames[c]? = some cf → cf.kind = Kind.plainTask →
      await_ready cf = false →
      ∃ m' : Machine, step m = StepOut.next m' ∧
        m'.frames[c]? = some { cf with continuation := Handle.coro fid } ∧
        m'.callStack = c :: rs) ∧
    (∀ (m : Machine) (fid v k : Nat) (f : Frame) (rs : List Nat),
      m.callStack = fid :: rs → m.frames[fid]? = some f →
      f.status = Status.running → f.body = Body.retConst v →
      f.kind = Kind.plainTask → f.continuation = Handle.coro k →
      step m = StepOut.next { m with
        frames := m.frames.set fid
          { f with result := Storage.value v, status := Status.final },
        callStack := k :: rs }) := by
  refine ⟨?_, ?_, ?_⟩
  · intro m b
    exact List.getElem?_concat_length _ _
  · intro m fid c f cf rest rs hcs hf hst hb hcf hkind hrdy
    have hclt : c < m.frames.length := (List.getElem?_eq_some.mp hcf).1
    refine ⟨_, step_await_suspend hcs hf hst hb hcf hkind hrdy, ?_, rfl⟩
    refine List.getElem?_set_eq ?_
    simpa using hclt
  · intro m fid v k f rs hcs hf hst hb hkind hcont
    rw [step_running_retConst hcs hf hst hb]
    unfold finishFrame
    simp [hkind, hcont]

/-- Claim C10 witness: awaiting the pending frame 1 of `awaitPairMachine`
overwrites its continuation (previously the no-op sentinel) with frame 0
and transfers control to it. -/
theorem c10_witness :
    ∃ m' : Machine, step awaitPairMachine = StepOut.next m' ∧
      m'.frames[1]? = some { pendingLeaf 5 with continuation := Handle.coro 0 } ∧
      m'.callStack = [1] :=
  c10_continuation_overwrite.2.1 awaitPairMachine 0 1 awaitRoot (pendingLeaf 5)
    Body.ret [] rfl rfl rfl rfl rfl rfl rfl

end MpCoro
